import Mathlib

/-!
Verification of the github-contributions aggregation pipeline.

The definitions below are a shallow embedding of the Rust sources:
`src/contribution.rs`, `src/models.rs`, `src/config.rs`,
`src/github_contribution_collector.rs` and
`src/github_contribution_collector/repo_regex.rs`.

Timestamps (`chrono::DateTime`) are embedded as `Int` instants: the code
compares a contribution time against `since.with_timezone(..)` /
`until.with_timezone(..)`, and `with_timezone` preserves the instant, so
the comparisons are plain instant comparisons.
-/

namespace GithubContributions

/-- `models::Repo` — equality by the `(org, name)` pair. -/
structure Repo where
  org : String
  name : String
deriving DecidableEq, Repr

/-- The fields of `octocrab::models::User` the pipeline reads: the numeric
account id (used as the grouping key) and the login. -/
structure User where
  id : Nat
  login : String
deriving DecidableEq, Repr

/-- `models::commit::Author` — author metadata of the commit object. -/
structure CommitAuthorMeta where
  name : String
  email : String
  date : Int
deriving DecidableEq, Repr

/-- `models::commit::EnrichedCommit` — `inner.author` is the optional linked
GitHub account, `commitAuthor` is `commit.author`. -/
structure EnrichedCommit where
  author : Option User
  commitAuthor : CommitAuthorMeta
deriving DecidableEq, Repr

/-- The fields of `octocrab::models::issues::Issue` the pipeline reads. -/
structure Issue where
  user : User
  created_at : Int
deriving DecidableEq, Repr

/-- The fields of `octocrab::models::pulls::Review` the pipeline reads;
`submitted_at` may be absent. -/
structure Review where
  user : User
  submitted_at : Option Int
deriving DecidableEq, Repr

/-- `contribution::GithubContribution` — tagged union of activity kinds. -/
inductive GithubContribution where
  | commit (c : EnrichedCommit)
  | issue (i : Issue)
  | review (r : Review)
deriving DecidableEq, Repr

/-- `contribution::Contribution`. -/
structure Contribution where
  repo : Repo
  contribution : GithubContribution
deriving DecidableEq, Repr

/-- `Contribution::created_at` (`src/contribution.rs`). -/
def Contribution.created_at : Contribution → Option Int
  | ⟨_, .commit c⟩ => some c.commitAuthor.date
  | ⟨_, .issue i⟩ => some i.created_at
  | ⟨_, .review r⟩ => r.submitted_at

/-- `Contribution::user` (`src/contribution.rs`). -/
def Contribution.user : Contribution → Option User
  | ⟨_, .commit c⟩ => c.author
  | ⟨_, .issue i⟩ => some i.user
  | ⟨_, .review r⟩ => some r.user

/-- `models::EnrichedUser`. -/
structure EnrichedUser where
  inner : User
  company : Option String
  email : Option String
deriving DecidableEq, Repr

/-- `config::UserOverride`. -/
structure UserOverride where
  login : String
  company : String
deriving DecidableEq, Repr

/-- `config::Repo` — a tracked repository plus its configured exclusion
company names. -/
structure ConfigRepo where
  repo : Repo
  companies_exclude : List String
deriving DecidableEq, Repr

/-! ### Regex semantics

`RepoRegex::from` compiles, for each configured company name `tok`
(regex-escaped, hence a literal):
  - the company pattern `(?i)tok` — case-insensitive search anywhere, and
  - the email pattern `@(\w\.)*(?i)tok(?-i)\.` — an `@`, then any number of
    (single word character, dot) pairs, then `tok` case-insensitively, then
    a dot.
The matchers below give those two patterns' `Regex::is_match` semantics
(for ASCII inputs; `\w` is embedded as an ASCII word character). -/

/-- A regex `\w` word character (ASCII). -/
def isWordChar (c : Char) : Bool := c.isAlphanum || c == '_'

/-- `tok` is a case-insensitive prefix of `s`. -/
def ciStarts : List Char → List Char → Bool
  | [], _ => true
  | _ :: _, [] => false
  | t :: ts, c :: cs => (t.toLower == c.toLower) && ciStarts ts cs

/-- The pattern `(?i)tok` matches somewhere in `s`. -/
def ciFind (tok : List Char) : List Char → Bool
  | [] => ciStarts tok []
  | c :: rest => ciStarts tok (c :: rest) || ciFind tok rest

/-- `tok` is a case-insensitive prefix of `s` and is followed by `'.'`. -/
def ciStartsDot : List Char → List Char → Bool
  | [], '.' :: _ => true
  | [], _ => false
  | _ :: _, [] => false
  | t :: ts, c :: cs => (t.toLower == c.toLower) && ciStartsDot ts cs

/-- The pattern `(\w\.)*(?i)tok(?-i)\.` matches at the start of `s`
(with regex backtracking: either `tok.` matches here, or one `\w.` pair is
consumed and we continue). -/
def emailTail (tok : List Char) : List Char → Bool
  | [] => ciStartsDot tok []
  | [c] => ciStartsDot tok [c]
  | a :: b :: rest =>
    ciStartsDot tok (a :: b :: rest) ||
      (isWordChar a && b == '.' && emailTail tok rest)

/-- The pattern `@(\w\.)*(?i)tok(?-i)\.` matches somewhere in `s`. -/
def emailScan (tok : List Char) : List Char → Bool
  | [] => false
  | c :: rest => (c == '@' && emailTail tok rest) || emailScan tok rest

/-- Company-pattern match: `Regex::new("(?i)" + escape(tok)).is_match(s)`. -/
def companyMatch (tok s : String) : Bool := ciFind tok.toList s.toList

/-- Email-pattern match:
`Regex::new("@(\w\.)*(?i)" + escape(tok) + "(?-i)\.").is_match(s)`. -/
def emailMatch (tok s : String) : Bool := emailScan tok.toList s.toList

/-- `ExcludeRegex` — the two compiled patterns; each field holds the company
token its regex was compiled from, with matching given by `companyMatch` /
`emailMatch`. -/
structure ExcludeRegex where
  company : String
  email : String
deriving DecidableEq, Repr

/-- `exclude_re.company.is_match(s)`. -/
def ExcludeRegex.companyIsMatch (re : ExcludeRegex) (s : String) : Bool :=
  companyMatch re.company s

/-- `exclude_re.email.is_match(s)`. -/
def ExcludeRegex.emailIsMatch (re : ExcludeRegex) (s : String) : Bool :=
  emailMatch re.email s

/-- `RepoRegex` — a tracked repo plus its compiled exclusion patterns. -/
structure RepoRegex where
  repo : Repo
  companies_exclude : List ExcludeRegex
deriving DecidableEq, Repr

/-- `RepoRegex::from(&config::Repo)`. -/
def RepoRegex.ofConfig (value : ConfigRepo) : RepoRegex :=
  { repo := value.repo
    companies_exclude :=
      value.companies_exclude.map (fun company => ⟨company, company⟩) }

/-! ### Errors and optional-resource downgrades -/

/-- `octocrab::Error`, reduced to what the pipeline inspects: a GitHub error
carrying its `documentation_url`, or any other (transport-level) error. -/
inductive OError where
  | gitHub (documentationUrl : String)
  | transport
deriving DecidableEq, Repr

instance {ε α : Type} [DecidableEq ε] [DecidableEq α] :
    DecidableEq (Except ε α) := fun x y =>
  match x, y with
  | .ok a, .ok b =>
    if h : a = b then .isTrue (by rw [h])
    else .isFalse (fun hh => h (by cases hh; rfl))
  | .error a, .error b =>
    if h : a = b then .isTrue (by rw [h])
    else .isFalse (fun hh => h (by cases hh; rfl))
  | .ok _, .error _ => .isFalse (fun hh => Except.noConfusion hh)
  | .error _, .ok _ => .isFalse (fun hh => Except.noConfusion hh)

def issuesDocUrl : String :=
  "https://docs.github.com/rest/reference/issues#list-repository-issues"

def pullsDocUrl : String :=
  "https://docs.github.com/rest/reference/pulls#list-pull-requests"

def commitsDocUrl : String :=
  "https://docs.github.com/rest/reference/repos#list-commits"

def userDocUrl : String :=
  "https://docs.github.com/rest/reference/users#get-a-user"

/-- `issues_page` — `result` is the raw first-page fetch; a GitHub error whose
documented cause is the list-repository-issues marker downgrades to no page. -/
def issues_page {α : Type} (result : Except OError α) : Except OError (Option α) :=
  match result with
  | .ok page => .ok (some page)
  | .error err =>
    match err with
    | .gitHub url =>
      if url = issuesDocUrl then .ok none else .error (.gitHub url)
    | .transport => .error .transport

/-- `pull_request_page` — same downgrade with the list-pull-requests marker. -/
def pull_request_page {α : Type} (result : Except OError α) :
    Except OError (Option α) :=
  match result with
  | .ok page => .ok (some page)
  | .error err =>
    match err with
    | .gitHub url =>
      if url = pullsDocUrl then .ok none else .error (.gitHub url)
    | .transport => .error .transport

/-- `commit_page` — same downgrade with the list-commits marker. -/
def commit_page {α : Type} (result : Except OError α) :
    Except OError (Option α) :=
  match result with
  | .ok page => .ok (some page)
  | .error err =>
    match err with
    | .gitHub url =>
      if url = commitsDocUrl then .ok none else .error (.gitHub url)
    | .transport => .error .transport

/-- `enrich_user` — `fetch` is the raw `/users/login` result; a GitHub error
whose documented cause is the get-a-user marker degrades to a profile with
company and email absent. -/
def enrich_user (fetch : Except OError EnrichedUser) (user : User) :
    Except OError EnrichedUser :=
  match fetch with
  | .ok u => .ok u
  | .error err =>
    match err with
    | .gitHub url =>
      if url = userDocUrl then .ok ⟨user, none, none⟩
      else .error (.gitHub url)
    | .transport => .error .transport

/-! ### Pagination walker

`retry_get_page` is called per next-page URL with `MAX_TRIES`; the fetch of a
given URL is modelled as a function from the retry attempt number (0-based)
to that attempt's result. `process_pages` drains a chained resource: it is
modelled by the first page's items, the remaining pages' item lists in order
(page `idx` for `idx ≥ 2` reached by its predecessor's next-URL), and a
schedule `failures idx` giving how many attempts to fetch page `idx` fail
before one succeeds. -/

def MAX_TRIES : Nat := 5

def isErr {ε α : Type} : Except ε α → Bool
  | .error _ => true
  | .ok _ => false

/-- `retry_get_page` — retry while the result is an error and
`tries_left >= 2`; otherwise return the last result as-is. -/
def retryGetPage {α : Type} (fetch : Nat → Except OError α) (attempt : Nat) :
    Nat → Except OError α
  | 0 => fetch attempt
  | 1 => fetch attempt
  | n + 2 =>
    let result := fetch attempt
    if isErr result then retryGetPage fetch (attempt + 1) (n + 1) else result

/-- The modelled fetch of page `idx` holding items `p`: attempts below
`failures idx` fail, later attempts succeed. -/
def pageFetch {α : Type} (failures : Nat → Nat) (idx : Nat) (p : List α)
    (attempt : Nat) : Except OError (List α) :=
  if attempt < failures idx then .error .transport else .ok p

/-- The loop body of `process_pages`: push the current page's items, fetch
the next page with `retry_get_page`, stop when there is no next page. -/
def processPagesGo {α : Type} (failures : Nat → Nat) (acc : List α)
    (idx : Nat) : List (List α) → Except OError (List α)
  | [] => .ok acc
  | p :: rest =>
    match retryGetPage (pageFetch failures idx p) 0 MAX_TRIES with
    | .error e => .error e
    | .ok page => processPagesGo failures (acc ++ page) (idx + 1) rest

/-- `process_pages` — first page already fetched, following pages fetched
with bounded retry (numbering the first fetched next-page as page 2). -/
def processPages {α : Type} (failures : Nat → Nat) (first : List α)
    (rest : List (List α)) : Except OError (List α) :=
  processPagesGo failures first 2 rest

/-- `GithubContributionCollector::issues` — no page means an empty list. -/
def issuesItems {α : Type} (result : Except OError (List α × List (List α)))
    (failures : Nat → Nat) : Except OError (List α) :=
  match issues_page result with
  | .error e => .error e
  | .ok none => .ok []
  | .ok (some p) => processPages failures p.1 p.2

/-- `GithubContributionCollector::commits` — no page means an empty list. -/
def commitsItems {α : Type} (result : Except OError (List α × List (List α)))
    (failures : Nat → Nat) : Except OError (List α) :=
  match commit_page result with
  | .error e => .error e
  | .ok none => .ok []
  | .ok (some p) => processPages failures p.1 p.2

/-- `GithubContributionCollector::reviews` — no pull-request page means an
empty list; otherwise drain the pull requests and fetch each one's reviews
(`fetchReviews` models the per-pull-request review fetch, already drained). -/
def reviewsItems {α β : Type}
    (result : Except OError (List α × List (List α))) (failures : Nat → Nat)
    (fetchReviews : α → Except OError (List β)) : Except OError (List β) :=
  match pull_request_page result with
  | .error e => .error e
  | .ok none => .ok []
  | .ok (some p) =>
    match processPages failures p.1 p.2 with
    | .error e => .error e
    | .ok prs =>
      match prs.mapM fetchReviews with
      | .error e => .error e
      | .ok reviewLists => .ok reviewLists.flatten

/-! ### Grouping (`contributions_by_user`) -/

/-- The derived account key of a group entry: the key user's numeric id. -/
def gkey (kv : Option User × List Contribution) : Option Nat :=
  kv.1.map User.id

/-- The derived account key of a contribution. -/
def ckey (c : Contribution) : Option Nat := c.user.map User.id

/-- One step of `contributions_by_user`: find an existing key with the same
account id (ignoring the rest of the embedded profile snapshot) and push the
contribution there; otherwise open a new entry keyed by this contribution's
user snapshot. -/
def insertContribution (m : List (Option User × List Contribution))
    (c : Contribution) : List (Option User × List Contribution) :=
  match m.find? (fun kv => gkey kv == ckey c) with
  | some _ =>
    m.map (fun kv => if gkey kv == ckey c then (kv.1, kv.2 ++ [c]) else kv)
  | none => m ++ [(c.user, [c])]

/-- `contributions_by_user` — the `HashMap` is embedded as an association
list in insertion order. -/
def contributions_by_user (contributions : List Contribution) :
    List (Option User × List Contribution) :=
  contributions.foldl insertContribution []

/-! ### Membership and the policy filter -/

/-- `check_membership` — OR across the orgs; `||` short-circuits, so once
membership is true no further org is queried. `oracle org login` is
`client.orgs(org).check_membership(login)`. -/
def check_membership (oracle : String → String → Except OError Bool)
    (login : String) (orgs : List String) : Except OError Bool :=
  orgs.foldlM
    (fun membership org =>
      if membership then pure true else oracle org login)
    false

/-- `since` / `until` bounds of `Params`, as instants. -/
structure Params where
  since : Option Int
  «until» : Option Int
deriving DecidableEq, Repr

/-- The date-range part of the per-repository filter closure in
`output_stream`: keep unless a present timestamp falls before `since` or at
or after `until`; no timestamp keeps unconditionally. -/
def keepByDate (params : Params) (c : Contribution) : Bool :=
  match c.created_at with
  | some contributionTime =>
    (match params.since with
     | some since => !(contributionTime < since : Bool)
     | none => true) &&
    (match params.«until» with
     | some u => !(u ≤ contributionTime : Bool)
     | none => true)
  | none => true

/-- Whether one exclusion rule matches the enriched author: its company
pattern against the author's company, or its email pattern against the
author's email (absent fields never match). -/
def reMatchesUser (re : ExcludeRegex) (user : EnrichedUser) : Bool :=
  (user.company.map (fun company => re.companyIsMatch company)).getD false ||
    (user.email.map (fun email => re.emailIsMatch email)).getD false

/-- The whole filter closure applied for one configured repository in
`output_stream`: date-range check, then — only when the configured repo
equals the contribution's repo — drop if any exclusion rule matches. -/
def filterOnce (params : Params) (config_repo : RepoRegex)
    (user : EnrichedUser) (c : Contribution) : Bool :=
  if keepByDate params c then
    if config_repo.repo = c.repo then
      !(config_repo.companies_exclude.any fun re => reMatchesUser re user)
    else true
  else false

/-- The `for config_repo in repos` loop of `output_stream`: refilter the
surviving contributions once per configured repository. -/
def applyRepoFilters (params : Params) (repos : List RepoRegex)
    (user : EnrichedUser) (contributions : List Contribution) :
    List Contribution :=
  repos.foldl
    (fun processed config_repo =>
      processed.filter (filterOnce params config_repo user))
    contributions

/-- `RepoRegex::exclude` (`repo_regex.rs`) — note it returns whether the
contribution is KEPT: `false` exactly when the repos match and some rule
matches the user. -/
def RepoRegex.exclude (self : RepoRegex) (contribution : Contribution)
    (user : EnrichedUser) : Bool :=
  if self.repo = contribution.repo then
    !(self.companies_exclude.any fun re => reMatchesUser re user)
  else true

/-! ### The output pipeline (`output_stream` / `process_contributions`) -/

/-- `Output`. -/
structure Output where
  user : Option EnrichedUser
  membership : Bool
  contributions : List Contribution
deriving DecidableEq, Repr

/-- The read-only configuration fed to `process_contributions`. -/
structure PipelineConfig where
  company_orgs : List String
  repos : List RepoRegex
  user_overrides : List UserOverride
  users_exclude : List String
  params : Params

/-- The remote calls `output_stream` may issue per author: the raw profile
fetch behind `enrich_user`, and the per-org membership check. -/
structure Oracles where
  enrich : User → Except OError EnrichedUser
  membership : String → String → Except OError Bool

/-- The enrichment step of `output_stream` for a present author: a matching
override bypasses the profile fetch and the membership calls (membership is
then the exact-string containment of the override company among the
configured company orgs); otherwise the profile is fetched via `enrich_user`
and membership is checked per org. -/
def enrichAndMembership (o : Oracles) (cfg : PipelineConfig) (user : User) :
    Except OError (EnrichedUser × Bool) :=
  match cfg.user_overrides.find? (fun ov => ov.login == user.login) with
  | some override_user =>
    .ok (⟨user, some override_user.company, none⟩,
      cfg.company_orgs.any (fun org => org == override_user.company))
  | none =>
    match enrich_user (o.enrich user) user with
    | .error e => .error e
    | .ok enriched_user =>
      match
        check_membership o.membership enriched_user.inner.login
          cfg.company_orgs
      with
      | .error e => .error e
      | .ok membership => .ok (enriched_user, membership)

/-- The body of `output_stream` for one author group. Returns `none` when the
group yields no `Output` (excluded login, or no surviving contribution). -/
def processGroup (o : Oracles) (cfg : PipelineConfig) (maybe_user : Option User)
    (contributions : List Contribution) : Except OError (Option Output) :=
  match maybe_user with
  | some user =>
    if cfg.users_exclude.any (fun login => user.login == login) then .ok none
    else
      match enrichAndMembership o cfg user with
      | .error e => .error e
      | .ok (enriched_user, membership) =>
        let processed :=
          applyRepoFilters cfg.params cfg.repos enriched_user contributions
        if processed.length = 0 then .ok none
        else .ok (some ⟨some enriched_user, membership, processed⟩)
  | none =>
    if contributions.length = 0 then .ok none
    else .ok (some ⟨none, false, contributions⟩)

/-- Collecting step of the output stream: append the group's `Output` when
one is emitted, keep the accumulator otherwise, propagate errors. -/
def outputStep (o : Oracles) (cfg : PipelineConfig) (acc : List Output)
    (kv : Option User × List Contribution) : Except OError (List Output) :=
  match processGroup o cfg kv.1 kv.2 with
  | .error e => .error e
  | .ok none => .ok acc
  | .ok (some out) => .ok (acc ++ [out])

/-- `process_contributions` / `output_stream`: group by user, process each
group, collect the emitted outputs (failing fast on the first error). -/
def process_contributions (o : Oracles) (cfg : PipelineConfig)
    (contributions : List Contribution) : Except OError (List Output) :=
  (contributions_by_user contributions).foldlM (outputStep o cfg) []

/-! ### Sample values used to instantiate theorems on concrete inputs -/

/-- A stub remote: every profile resolves to an empty profile, every
membership check answers false. -/
def sampleOracle : Oracles :=
  ⟨fun u => .ok ⟨u, none, none⟩, fun _ _ => .ok false⟩

/-- A remote where every call fails with a transport error. -/
def failingOracle : Oracles :=
  ⟨fun _ => .error .transport, fun _ _ => .error .transport⟩

/-- A configuration with no tracked repositories and `eve` excluded. -/
def cfgNoRepos : PipelineConfig := ⟨[], [], [], ["eve"], ⟨none, none⟩⟩

/-- A configuration with an override `bob ↦ "Acme Inc"` and that company
listed as a company organization. -/
def cfgOverride : PipelineConfig :=
  ⟨["Acme Inc"], [], [⟨"bob", "Acme Inc"⟩], [], ⟨none, none⟩⟩

def eveIssue : Contribution := ⟨⟨"acme", "widget"⟩, .issue ⟨⟨7, "eve"⟩, 5⟩⟩

def bobIssue : Contribution := ⟨⟨"acme", "widget"⟩, .issue ⟨⟨3, "bob"⟩, 5⟩⟩

/-- A second contribution by the same account id 3, with a different login
snapshot. -/
def bobIssue2 : Contribution := ⟨⟨"other", "repo"⟩, .issue ⟨⟨3, "bobby"⟩, 9⟩⟩

def carolReview : Contribution :=
  ⟨⟨"other", "repo"⟩, .review ⟨⟨4, "carol"⟩, none⟩⟩

def aliceIssueAt0 : Contribution := ⟨⟨"o", "r"⟩, .issue ⟨⟨1, "alice"⟩, 0⟩⟩

/-- The output record the stub remote produces for carol's lone review under
`cfgNoRepos`. -/
def outCarol : Output :=
  ⟨some ⟨⟨4, "carol"⟩, none, none⟩, false, [carolReview]⟩

end GithubContributions

namespace GithubContributions

/-! ### Helper lemmas -/

lemma retryGetPage_eq_of_first_ok {α : Type} (fetch : Nat → Except OError α) :
    ∀ (k t attempt : Nat), k < t →
      (∀ j, j < k → isErr (fetch (attempt + j)) = true) →
      isErr (fetch (attempt + k)) = false →
      retryGetPage fetch attempt t = fetch (attempt + k) := by
  intro k
  induction k with
  | zero =>
    intro t attempt _ _ hok
    simp only [Nat.add_zero] at hok
    match t with
    | 0 => simp [retryGetPage]
    | 1 => simp [retryGetPage]
    | n + 2 => simp [retryGetPage, hok]
  | succ k ih =>
    intro t attempt hlt herr hok
    match t with
    | 0 => omega
    | 1 => omega
    | n + 2 =>
      have h0 : isErr (fetch attempt) = true := by
        have := herr 0 (by omega)
        simpa using this
      have step :
          retryGetPage fetch attempt (n + 2) =
            retryGetPage fetch (attempt + 1) (n + 1) := by
        simp [retryGetPage, h0]
      rw [step]
      have hres := ih (n + 1) (attempt + 1) (by omega)
        (fun j hj => by
          have := herr (j + 1) (by omega)
          simpa [Nat.add_assoc, Nat.add_comm 1 j] using this)
        (by simpa [Nat.add_assoc, Nat.add_comm 1 k] using hok)
      rw [hres]
      congr 1
      omega

lemma retryGetPage_eq_of_all_err {α : Type} (fetch : Nat → Except OError α) :
    ∀ (t attempt : Nat),
      (∀ j, j < t → isErr (fetch (attempt + j)) = true) →
      retryGetPage fetch attempt t = fetch (attempt + (t - 1)) := by
  intro t
  induction t using Nat.strong_induction_on with
  | _ t ih =>
    intro attempt herr
    match t with
    | 0 => simp [retryGetPage]
    | 1 => simp [retryGetPage]
    | n + 2 =>
      have h0 : isErr (fetch attempt) = true := by
        have := herr 0 (by omega)
        simpa using this
      have step :
          retryGetPage fetch attempt (n + 2) =
            retryGetPage fetch (attempt + 1) (n + 1) := by
        simp [retryGetPage, h0]
      rw [step]
      have hres := ih (n + 1) (by omega) (attempt + 1)
        (fun j hj => by
          have := herr (j + 1) (by omega)
          simpa [Nat.add_assoc, Nat.add_comm 1 j] using this)
      rw [hres]
      congr 1
      omega

lemma pageFetch_retry_ok {α : Type} (failures : Nat → Nat) (idx : Nat)
    (p : List α) (hf : failures idx ≤ 4) :
    retryGetPage (pageFetch failures idx p) 0 MAX_TRIES = .ok p := by
  have h := retryGetPage_eq_of_first_ok (pageFetch failures idx p)
    (failures idx) MAX_TRIES 0
    (by simp only [MAX_TRIES]; omega)
    (fun j hj => by simp [pageFetch, isErr, hj])
    (by simp [pageFetch, isErr])
  simpa [pageFetch] using h

lemma processPagesGo_ok {α : Type} (failures : Nat → Nat)
    (hf : ∀ i, failures i ≤ 4) :
    ∀ (rest : List (List α)) (acc : List α) (idx : Nat),
      processPagesGo failures acc idx rest = .ok (acc ++ rest.flatten) := by
  intro rest
  induction rest with
  | nil => intro acc idx; simp [processPagesGo]
  | cons p rest ih =>
    intro acc idx
    rw [processPagesGo, pageFetch_retry_ok failures idx p (hf idx)]
    simp [ih]

/-! ### Claim theorems -/

/-- C4: the pagination walker retries a failing fetch-next-page call up to 4
additional times after the first failure (once fewer than 2 attempts remain
the last result, success or failure, is returned as-is); on success it
returns the concatenation of every page's items exactly once, in page order;
in particular, a 3-page resource whose page-2 fetch fails twice then
succeeds yields all items of all 3 pages exactly once, in page order. -/
theorem c4_pagination_walker :
    (∀ (α : Type) (fetch : Nat → Except OError α) (k : Nat), k ≤ 4 →
      (∀ j, j < k → isErr (fetch j) = true) → isErr (fetch k) = false →
      retryGetPage fetch 0 MAX_TRIES = fetch k) ∧
    (∀ (α : Type) (fetch : Nat → Except OError α),
      (∀ j, j ≤ 4 → isErr (fetch j) = true) →
      retryGetPage fetch 0 MAX_TRIES = fetch 4) ∧
    (∀ (α : Type) (failures : Nat → Nat) (first : List α)
        (rest : List (List α)), (∀ i, failures i ≤ 4) →
      processPages failures first rest = .ok (first ++ rest.flatten)) ∧
    processPages (fun i => if i = 2 then 2 else 0) [1, 2] [[3], [4, 5]] =
      .ok ([1, 2, 3, 4, 5] : List Nat) := by
  refine ⟨?_, ?_, ?_, by decide⟩
  · intro α fetch k hk herr hok
    have h := retryGetPage_eq_of_first_ok fetch k MAX_TRIES 0
      (by simp only [MAX_TRIES]; omega)
      (fun j hj => by simpa using herr j hj)
      (by simpa using hok)
    simpa using h
  · intro α fetch herr
    have h := retryGetPage_eq_of_all_err fetch MAX_TRIES 0
      (fun j hj => by
        have : j ≤ 4 := by simp only [MAX_TRIES] at hj; omega
        simpa using herr j this)
    simpa [MAX_TRIES] using h
  · intro α failures first rest hf
    exact processPagesGo_ok failures hf rest first 2

theorem c4_pagination_walker_witness :
    processPages (fun _ => 0) [1] [[2]] = .ok ([1, 2] : List Nat) := by
  have h := c4_pagination_walker.2.2.1 Nat (fun _ => 0) [1] [[2]]
    (fun i => by simp)
  simpa using h

/-- C3: for the patterns compiled from configured company name "Acme", the
company pattern does match "ACME Corp" and the email pattern does reject
"user@notacme.com", but — contrary to the claim — the email pattern does
NOT match "user@mail.acme.com": `(\w\.)*` only skips single-character
domain labels, so only "user@acme.com" or "user@m.acme.com" match. -/
theorem c3_exclusion_patterns :
    companyMatch "Acme" "ACME Corp" = true ∧
    emailMatch "Acme" "user@mail.acme.com" = false ∧
    emailMatch "Acme" "user@notacme.com" = false ∧
    emailMatch "Acme" "user@m.acme.com" = true ∧
    emailMatch "Acme" "user@acme.com" = true ∧
    (RepoRegex.ofConfig ⟨⟨"acme", "widget"⟩, ["Acme"]⟩).companies_exclude =
      [⟨"Acme", "Acme"⟩] := by decide

lemma mem_applyRepoFilters (params : Params) (user : EnrichedUser) :
    ∀ (repos : List RepoRegex) (cs : List Contribution) (c : Contribution),
      c ∈ applyRepoFilters params repos user cs ↔
        c ∈ cs ∧ ∀ config_repo ∈ repos,
          filterOnce params config_repo user c = true := by
  intro repos
  induction repos with
  | nil => intro cs c; simp [applyRepoFilters]
  | cons r rs ih =>
    intro cs c
    have hstep : applyRepoFilters params (r :: rs) user cs =
        applyRepoFilters params rs user
          (cs.filter (filterOnce params r user)) := rfl
    rw [hstep, ih, List.mem_filter]
    constructor
    · rintro ⟨⟨hc, hr⟩, hrs⟩
      refine ⟨hc, ?_⟩
      intro cr hcr
      rcases List.mem_cons.mp hcr with h | h
      · exact h ▸ hr
      · exact hrs cr h
    · rintro ⟨hc, hall⟩
      exact ⟨⟨hc, hall r (List.mem_cons_self r rs)⟩,
        fun cr hcr => hall cr (List.mem_cons_of_mem r hcr)⟩

lemma filterOnce_eq_false_iff (params : Params) (config_repo : RepoRegex)
    (user : EnrichedUser) (c : Contribution)
    (hdate : keepByDate params c = true) :
    filterOnce params config_repo user c = false ↔
      config_repo.repo = c.repo ∧
        ∃ re ∈ config_repo.companies_exclude, reMatchesUser re user = true := by
  by_cases hrepo : config_repo.repo = c.repo
  · simp [filterOnce, hdate, hrepo, List.any_eq_true]
  · simp [filterOnce, hdate, hrepo]

/-- C1: a contribution is retained by the date filter iff (`since` absent or
`created_at ≥ since`) and (`until` absent or `created_at < until`); a
contribution lacking a timestamp is retained unconditionally; the per-repo
filter closure keeps a contribution only if the date filter does; with
`since = T0 < until = T1`, `created_at = T0` is retained, `created_at = T1`
is excluded, and no timestamp is retained. -/
theorem c1_date_range_filter (params : Params) (c : Contribution) :
    (keepByDate params c = true ↔
      ∀ t, c.created_at = some t →
        (∀ s, params.since = some s → s ≤ t) ∧
        (∀ u, params.«until» = some u → t < u)) ∧
    (∀ config_repo user, keepByDate params c = false →
      filterOnce params config_repo user c = false) ∧
    (∀ t0 t1 : Int, t0 < t1 →
      (c.created_at = some t0 →
        keepByDate ⟨some t0, some t1⟩ c = true) ∧
      (c.created_at = some t1 →
        keepByDate ⟨some t0, some t1⟩ c = false) ∧
      (c.created_at = none → keepByDate ⟨some t0, some t1⟩ c = true)) := by
  refine ⟨?_, ?_, ?_⟩
  · cases hca : c.created_at with
    | none => simp [keepByDate, hca]
    | some t =>
      cases hs : params.since <;> cases hu : params.«until» <;>
        · simp [keepByDate, hca, hs, hu]
          try omega
  · intro config_repo user hdate
    simp [filterOnce, hdate]
  · intro t0 t1 h01
    refine ⟨?_, ?_, ?_⟩ <;> intro hca <;>
      · simp [keepByDate, hca]
        try omega

theorem c1_date_range_filter_witness :
    keepByDate ⟨some 0, some 10⟩ aliceIssueAt0 = true :=
  ((c1_date_range_filter ⟨some 0, some 10⟩ aliceIssueAt0).2.2 0 10
    (by decide)).1 (by decide)

/-- C2: inside the per-configured-repository loop, a contribution that passes
the date filter is dropped iff some configured repository equals its repo and
one of that repository's exclusion rules matches the author's company or
email; if every configured repository equal to its repo has no exclusion
rules, it is never dropped by this stage. -/
theorem c2_repo_exclusion (params : Params) (repos : List RepoRegex)
    (user : EnrichedUser) (cs : List Contribution) (c : Contribution)
    (hmem : c ∈ cs) (hdate : keepByDate params c = true) :
    (c ∉ applyRepoFilters params repos user cs ↔
      ∃ config_repo ∈ repos, config_repo.repo = c.repo ∧
        ∃ re ∈ config_repo.companies_exclude,
          reMatchesUser re user = true) ∧
    ((∀ config_repo ∈ repos, config_repo.repo = c.repo →
        config_repo.companies_exclude = []) →
      c ∈ applyRepoFilters params repos user cs) := by
  constructor
  · rw [mem_applyRepoFilters]
    constructor
    · intro hnot
      by_contra hnone
      push_neg at hnone
      apply hnot
      refine ⟨hmem, fun config_repo hcr => ?_⟩
      by_contra hfalse
      have hf : filterOnce params config_repo user c = false := by
        cases h : filterOnce params config_repo user c
        · rfl
        · exact absurd h hfalse
      rcases (filterOnce_eq_false_iff params config_repo user c hdate).mp hf
        with ⟨hrepo, re, hre, hmatch⟩
      exact hnone config_repo hcr hrepo re hre hmatch
    · rintro ⟨config_repo, hcr, hrepo, re, hre, hmatch⟩ ⟨-, hall⟩
      have := hall config_repo hcr
      rw [(by
        exact (filterOnce_eq_false_iff params config_repo user c hdate).mpr
          ⟨hrepo, re, hre, hmatch⟩ : filterOnce params config_repo user c
            = false)] at this
      exact Bool.false_ne_true this
  · intro hnone
    rw [mem_applyRepoFilters]
    refine ⟨hmem, fun config_repo hcr => ?_⟩
    by_cases hrepo : config_repo.repo = c.repo
    · simp [filterOnce, hdate, hrepo, hnone config_repo hcr hrepo]
    · simp [filterOnce, hdate, hrepo]

theorem c2_repo_exclusion_witness :
    bobIssue ∈ applyRepoFilters ⟨none, none⟩
      [⟨⟨"acme", "widget"⟩, []⟩] ⟨⟨3, "bob"⟩, some "Acme Inc", none⟩
      [bobIssue] :=
  (c2_repo_exclusion ⟨none, none⟩ [⟨⟨"acme", "widget"⟩, []⟩]
    ⟨⟨3, "bob"⟩, some "Acme Inc", none⟩ [bobIssue] bobIssue
    (by decide) (by decide)).2 (by decide)

lemma gkey_insert_update (m : List (Option User × List Contribution))
    (c : Contribution) :
    (m.map fun kv =>
        if gkey kv == ckey c then (kv.1, kv.2 ++ [c]) else kv).map gkey =
      m.map gkey := by
  rw [List.map_map]
  apply List.map_congr_left
  intro kv _
  by_cases h : gkey kv = ckey c <;>
    · simp only [gkey] at h ⊢
      simp [gkey, h]

lemma insertContribution_spec (m : List (Option User × List Contribution))
    (c : Contribution) (hnd : (m.map gkey).Nodup)
    (hhom : ∀ kv ∈ m, ∀ d ∈ kv.2, ckey d = gkey kv) :
    ((insertContribution m c).map gkey).Nodup ∧
    (∀ kv ∈ insertContribution m c, ∀ d ∈ kv.2, ckey d = gkey kv) ∧
    (∀ d, (∃ kv ∈ m, gkey kv = ckey d ∧ d ∈ kv.2) →
      ∃ kv ∈ insertContribution m c, gkey kv = ckey d ∧ d ∈ kv.2) ∧
    (∃ kv ∈ insertContribution m c, gkey kv = ckey c ∧ c ∈ kv.2) := by
  cases hfind : m.find? (fun kv => gkey kv == ckey c) with
  | some kv0 =>
    have hkv0m : kv0 ∈ m := List.mem_of_find?_eq_some hfind
    have hkv0 : gkey kv0 = ckey c := by
      have := List.find?_some hfind
      exact beq_iff_eq.mp this
    have hins : insertContribution m c =
        m.map fun kv =>
          if gkey kv == ckey c then (kv.1, kv.2 ++ [c]) else kv := by
      simp [insertContribution, hfind]
    refine ⟨?_, ?_, ?_, ?_⟩
    · rw [hins, gkey_insert_update]; exact hnd
    · rw [hins]
      intro kv hkv d hd
      rcases List.mem_map.mp hkv with ⟨kv', hkv'm, hkv'⟩
      by_cases h : gkey kv' == ckey c
      · rw [if_pos h] at hkv'
        rcases List.mem_append.mp (by rw [← hkv'] at hd; exact hd) with
          hold | hnew
        · have hval := hhom kv' hkv'm d hold
          rw [← hkv']
          simpa [gkey] using hval
        · have hdc : d = c := by simpa using hnew
          rw [← hkv', hdc]
          have hk : gkey kv' = ckey c := beq_iff_eq.mp h
          simpa [gkey] using hk.symm
      · rw [if_neg h] at hkv'
        exact hkv' ▸ hhom kv' hkv'm d (by rw [← hkv'] at hd; exact hd)
    · rw [hins]
      rintro d ⟨kv, hkvm, hkey, hd⟩
      by_cases h : gkey kv == ckey c
      · refine ⟨(kv.1, kv.2 ++ [c]), ?_, ?_, List.mem_append_left _ hd⟩
        · have heq : (if gkey kv == ckey c then (kv.1, kv.2 ++ [c])
              else kv) = (kv.1, kv.2 ++ [c]) := by simp [h]
          exact heq ▸ List.mem_map_of_mem _ hkvm
        · simpa [gkey] using hkey
      · refine ⟨kv, ?_, hkey, hd⟩
        have heq : (if gkey kv == ckey c then (kv.1, kv.2 ++ [c])
            else kv) = kv := by simp [h]
        exact heq ▸ List.mem_map_of_mem _ hkvm
    · rw [hins]
      refine ⟨(kv0.1, kv0.2 ++ [c]), ?_, ?_, by simp⟩
      · have heq : (if gkey kv0 == ckey c then (kv0.1, kv0.2 ++ [c])
            else kv0) = (kv0.1, kv0.2 ++ [c]) := by simp [hkv0]
        exact heq ▸ List.mem_map_of_mem _ hkv0m
      · simpa [gkey] using hkv0
  | none =>
    have hnotin : ckey c ∉ m.map gkey := by
      intro hin
      rcases List.mem_map.mp hin with ⟨kv, hkvm, hkey⟩
      have := List.find?_eq_none.mp hfind kv hkvm
      simp [hkey] at this
    have hins : insertContribution m c = m ++ [(c.user, [c])] := by
      simp [insertContribution, hfind]
    refine ⟨?_, ?_, ?_, ?_⟩
    · rw [hins]
      simp only [List.map_append, List.map_cons, List.map_nil]
      rw [List.nodup_append]
      refine ⟨hnd, List.nodup_singleton _, ?_⟩
      intro a ha hb
      simp only [List.mem_singleton] at hb
      subst hb
      exact hnotin (by simpa [gkey, ckey] using ha)
    · rw [hins]
      intro kv hkv d hd
      rcases List.mem_append.mp hkv with hold | hnew
      · exact hhom kv hold d hd
      · have hkvc : kv = (c.user, [c]) := by simpa using hnew
        subst hkvc
        have hdc : d = c := by simpa using hd
        subst hdc
        simp [gkey, ckey]
    · rw [hins]
      rintro d ⟨kv, hkvm, hkey, hd⟩
      exact ⟨kv, List.mem_append_left _ hkvm, hkey, hd⟩
    · rw [hins]
      exact ⟨(c.user, [c]), List.mem_append_right _ (by simp),
        by simp [gkey, ckey], by simp⟩

lemma contributions_by_user_aux (cs : List Contribution) :
    ∀ (m : List (Option User × List Contribution)),
      (m.map gkey).Nodup →
      (∀ kv ∈ m, ∀ d ∈ kv.2, ckey d = gkey kv) →
      ((cs.foldl insertContribution m).map gkey).Nodup ∧
      (∀ kv ∈ cs.foldl insertContribution m, ∀ d ∈ kv.2,
        ckey d = gkey kv) ∧
      (∀ d, (∃ kv ∈ m, gkey kv = ckey d ∧ d ∈ kv.2) →
        ∃ kv ∈ cs.foldl insertContribution m,
          gkey kv = ckey d ∧ d ∈ kv.2) ∧
      (∀ c ∈ cs, ∃ kv ∈ cs.foldl insertContribution m,
        gkey kv = ckey c ∧ c ∈ kv.2) := by
  induction cs with
  | nil =>
    intro m hnd hhom
    exact ⟨hnd, hhom, fun d hd => hd, by simp⟩
  | cons c cs ih =>
    intro m hnd hhom
    obtain ⟨hnd1, hhom1, hpres1, hplace1⟩ :=
      insertContribution_spec m c hnd hhom
    obtain ⟨hnd2, hhom2, hpres2, hplace2⟩ :=
      ih (insertContribution m c) hnd1 hhom1
    refine ⟨hnd2, hhom2, ?_, ?_⟩
    · intro d hd
      exact hpres2 d (hpres1 d hd)
    · intro d hd
      rcases List.mem_cons.mp hd with h | h
      · subst h
        exact hpres2 d hplace1
      · exact hplace2 d h

/-- C6: grouping partitions contributions by stable account identifier: the
derived account ids of the resulting groups are pairwise distinct, every
contribution lands in a group carrying its own derived account id, and two
contributions with equal derived ids — in particular all authorless ones,
and snapshots with equal id differing in other fields — always land in the
same single group. -/
theorem c6_grouping (cs : List Contribution) :
    ((contributions_by_user cs).map gkey).Nodup ∧
    (∀ c ∈ cs, ∃ kv ∈ contributions_by_user cs,
      gkey kv = ckey c ∧ c ∈ kv.2) ∧
    (∀ kv1 ∈ contributions_by_user cs, ∀ kv2 ∈ contributions_by_user cs,
      ∀ c1 ∈ kv1.2, ∀ c2 ∈ kv2.2, ckey c1 = ckey c2 → kv1 = kv2) := by
  obtain ⟨hnd, hhom, -, hplace⟩ :=
    contributions_by_user_aux cs [] (by simp) (by simp)
  refine ⟨hnd, hplace, ?_⟩
  intro kv1 h1 kv2 h2 c1 hc1 c2 hc2 hkey
  have e1 : ckey c1 = gkey kv1 := hhom kv1 h1 c1 hc1
  have e2 : ckey c2 = gkey kv2 := hhom kv2 h2 c2 hc2
  exact List.inj_on_of_nodup_map hnd h1 h2 (by rw [← e1, ← e2]; exact hkey)

theorem c6_grouping_witness :
    ∃ kv ∈ contributions_by_user [bobIssue, bobIssue2],
      gkey kv = ckey bobIssue2 ∧ bobIssue2 ∈ kv.2 :=
  (c6_grouping [bobIssue, bobIssue2]).2.1 bobIssue2 (by decide)

/-- C5: an author group whose login matches a configured override is
processed without any profile-fetch or membership call (the result is the
same under any remote behaviour), its enriched author carries exactly the
override company with email absent, and its membership flag is true iff the
override company string equals one of the configured company orgs. -/
theorem c5_override (o o' : Oracles) (cfg : PipelineConfig) (user : User)
    (cs : List Contribution) (ov : UserOverride)
    (hov : cfg.user_overrides.find? (fun x => x.login == user.login) =
      some ov) :
    processGroup o cfg (some user) cs = processGroup o' cfg (some user) cs ∧
    ∀ out, processGroup o cfg (some user) cs = .ok (some out) →
      out.user = some ⟨user, some ov.company, none⟩ ∧
      (out.membership = true ↔ ov.company ∈ cfg.company_orgs) := by
  have henr : ∀ o'' : Oracles, enrichAndMembership o'' cfg user =
      .ok (⟨user, some ov.company, none⟩,
        cfg.company_orgs.any (fun org => org == ov.company)) := by
    intro o''
    simp [enrichAndMembership, hov]
  constructor
  · simp [processGroup, henr o, henr o']
  · intro out hout
    by_cases hex : cfg.users_exclude.any (fun login => user.login == login)
    · simp [processGroup, hex] at hout
    · by_cases hlen : (applyRepoFilters cfg.params cfg.repos
          ⟨user, some ov.company, none⟩ cs).length = 0
      · simp [processGroup, hex, henr o, hlen] at hout
      · simp [processGroup, hex, henr o, hlen] at hout
        rw [← hout]
        refine ⟨rfl, ?_⟩
        simp [List.any_eq_true]

theorem c5_override_witness :
    processGroup sampleOracle cfgOverride (some ⟨3, "bob"⟩) [bobIssue] =
      processGroup failingOracle cfgOverride (some ⟨3, "bob"⟩) [bobIssue] :=
  (c5_override sampleOracle failingOracle cfgOverride ⟨3, "bob"⟩ [bobIssue]
    ⟨"bob", "Acme Inc"⟩ (by decide)).1

lemma processGroup_some_nonempty (o : Oracles) (cfg : PipelineConfig)
    (maybe_user : Option User) (cs : List Contribution) (out : Output)
    (h : processGroup o cfg maybe_user cs = .ok (some out)) :
    out.contributions ≠ [] := by
  cases maybe_user with
  | none =>
    by_cases hlen : cs.length = 0
    · simp [processGroup, hlen] at h
    · simp [processGroup, hlen] at h
      rw [← h]
      simpa [← List.length_eq_zero] using hlen
  | some user =>
    by_cases hex : cfg.users_exclude.any (fun login => user.login == login)
    · simp [processGroup, hex] at h
    · cases henr : enrichAndMembership o cfg user with
      | error e => simp [processGroup, hex, henr] at h
      | ok p =>
        obtain ⟨eu, memb⟩ := p
        by_cases hlen :
            (applyRepoFilters cfg.params cfg.repos eu cs).length = 0
        · simp [processGroup, hex, henr, hlen] at h
        · simp [processGroup, hex, henr, hlen] at h
          rw [← h]
          simpa [← List.length_eq_zero] using hlen

lemma foldlM_outputStep_nonempty (o : Oracles) (cfg : PipelineConfig) :
    ∀ (groups : List (Option User × List Contribution))
      (acc outs : List Output),
      (∀ out ∈ acc, out.contributions ≠ []) →
      groups.foldlM (outputStep o cfg) acc = .ok outs →
      ∀ out ∈ outs, out.contributions ≠ [] := by
  intro groups
  induction groups with
  | nil =>
    intro acc outs hacc h
    simp only [List.foldlM_nil] at h
    cases h
    exact hacc
  | cons g gs ih =>
    intro acc outs hacc h
    simp only [List.foldlM_cons] at h
    cases hstep : outputStep o cfg acc g with
    | error e =>
      rw [hstep] at h
      have hbind : ((Except.error e : Except OError (List Output)) >>=
          fun b => List.foldlM (outputStep o cfg) b gs) =
            Except.error e := rfl
      rw [hbind] at h
      exact Except.noConfusion h
    | ok acc' =>
      rw [hstep] at h
      have hbind : (Except.ok acc' >>= fun b =>
          List.foldlM (outputStep o cfg) b gs) =
            List.foldlM (outputStep o cfg) acc' gs := rfl
      rw [hbind] at h
      refine ih acc' outs ?_ h
      intro out hout
      rw [outputStep] at hstep
      cases hpg : processGroup o cfg g.1 g.2 with
      | error e => rw [hpg] at hstep; cases hstep
      | ok o? =>
        cases o? with
        | none =>
          rw [hpg] at hstep
          cases hstep
          exact hacc out hout
        | some out' =>
          rw [hpg] at hstep
          cases hstep
          rcases List.mem_append.mp hout with hin | hnew
          · exact hacc out hin
          · have : out = out' := by simpa using hnew
            subst this
            exact processGroup_some_nonempty o cfg g.1 g.2 out hpg

/-- C7: `process_contributions` never emits an `Output` with an empty
contribution list — a group whose contributions are all filtered out
produces no record. -/
theorem c7_no_empty_outputs (o : Oracles) (cfg : PipelineConfig)
    (contributions : List Contribution) (outs : List Output)
    (h : process_contributions o cfg contributions = .ok outs) :
    ∀ out ∈ outs, out.contributions ≠ [] :=
  foldlM_outputStep_nonempty o cfg (contributions_by_user contributions)
    [] outs (by simp) h

theorem c7_no_empty_outputs_witness : outCarol.contributions ≠ [] :=
  c7_no_empty_outputs sampleOracle cfgNoRepos [carolReview] [outCarol]
    (by decide) outCarol (by decide)

/-- C9: a group whose author login appears in the configured exclude list is
dropped before anything else — for every remote behaviour (hence no
enrichment or membership call), and regardless of dates and exclusion
rules, no output is emitted. -/
theorem c9_users_exclude (o : Oracles) (cfg : PipelineConfig) (user : User)
    (cs : List Contribution)
    (hex : cfg.users_exclude.any (fun login => user.login == login) = true) :
    processGroup o cfg (some user) cs = .ok none := by
  simp [processGroup, hex]

theorem c9_users_exclude_witness :
    processGroup failingOracle cfgNoRepos (some ⟨7, "eve"⟩) [eveIssue] =
      .ok none :=
  c9_users_exclude failingOracle cfgNoRepos ⟨7, "eve"⟩ [eveIssue] (by decide)

/-- C10 (counterexample): with no configured repositories, a group whose
author login is in the exclude list is dropped entirely — its contributions
are NOT emitted unchanged, refuting the claim as stated for that case. -/
theorem c10_counterexample :
    cfgNoRepos.repos = [] ∧
    contributions_by_user [eveIssue] = [(some ⟨7, "eve"⟩, [eveIssue])] ∧
    process_contributions sampleOracle cfgNoRepos [eveIssue] = .ok [] := by
  decide

/-- C10 (amended): the date-range and exclusion filters run only inside the
per-configured-repository loop of a group with a present author: a group
with no resolvable author is emitted with all its contributions unchanged
(iff it is nonempty), and when the configured repository list is empty any
emitted record carries the group's contributions unchanged — but a group may
still be suppressed by the explicit-exclude check or by an enrichment
failure. -/
theorem c10_filters_scope (o : Oracles) (cfg : PipelineConfig)
    (maybe_user : Option User) (cs : List Contribution) :
    (maybe_user = none →
      processGroup o cfg maybe_user cs =
        .ok (if cs.length = 0 then none else some ⟨none, false, cs⟩)) ∧
    (cfg.repos = [] → ∀ out,
      processGroup o cfg maybe_user cs = .ok (some out) →
      out.contributions = cs) := by
  constructor
  · rintro rfl
    by_cases hlen : cs.length = 0 <;> simp [processGroup, hlen]
  · intro hrepos out hout
    have hfilters : ∀ u : EnrichedUser,
        applyRepoFilters cfg.params cfg.repos u cs = cs := by
      intro u; rw [hrepos]; rfl
    cases maybe_user with
    | none =>
      by_cases hlen : cs.length = 0
      · simp [processGroup, hlen] at hout
      · simp [processGroup, hlen] at hout
        rw [← hout]
    | some user =>
      by_cases hex : cfg.users_exclude.any (fun login => user.login == login)
      · simp [processGroup, hex] at hout
      · cases henr : enrichAndMembership o cfg user with
        | error e => simp [processGroup, hex, henr] at hout
        | ok p =>
          obtain ⟨eu, memb⟩ := p
          by_cases hlen :
              (applyRepoFilters cfg.params cfg.repos eu cs).length = 0
          · simp [processGroup, hex, henr, hlen] at hout
          · simp [processGroup, hex, henr, hlen] at hout
            rw [← hout]
            exact hfilters eu

theorem c10_filters_scope_witness :
    processGroup failingOracle cfgNoRepos none [eveIssue] =
      .ok (some ⟨none, false, [eveIssue]⟩) := by
  have h := (c10_filters_scope failingOracle cfgNoRepos none [eveIssue]).1 rfl
  simpa using h

/-- C8: expected-absent resources are downgraded, never surfaced as errors:
a listing fetch failing with its endpoint's documented-cause marker yields
an empty result, a profile fetch failing with the get-a-user marker yields a
profile with company and email absent, and a failure with any other cause
(a different documentation URL, or a transport failure) propagates
unchanged. -/
theorem c8_expected_absent :
    (∀ (α : Type) (failures : Nat → Nat),
      issuesItems (Except.error (OError.gitHub issuesDocUrl) :
        Except OError (List α × List (List α))) failures = .ok []) ∧
    (∀ (α : Type) (failures : Nat → Nat),
      commitsItems (Except.error (OError.gitHub commitsDocUrl) :
        Except OError (List α × List (List α))) failures = .ok []) ∧
    (∀ (α β : Type) (failures : Nat → Nat)
        (fetchReviews : α → Except OError (List β)),
      reviewsItems (Except.error (OError.gitHub pullsDocUrl) :
        Except OError (List α × List (List α))) failures fetchReviews =
          .ok []) ∧
    (∀ user : User,
      enrich_user (.error (.gitHub userDocUrl)) user =
        .ok ⟨user, none, none⟩) ∧
    (∀ (α : Type) (url : String), url ≠ issuesDocUrl →
      issues_page (Except.error (OError.gitHub url) : Except OError α) =
        .error (.gitHub url)) ∧
    (∀ (α : Type) (url : String), url ≠ commitsDocUrl →
      commit_page (Except.error (OError.gitHub url) : Except OError α) =
        .error (.gitHub url)) ∧
    (∀ (α : Type) (url : String), url ≠ pullsDocUrl →
      pull_request_page (Except.error (OError.gitHub url) :
        Except OError α) = .error (.gitHub url)) ∧
    (∀ (url : String) (user : User), url ≠ userDocUrl →
      enrich_user (.error (.gitHub url)) user = .error (.gitHub url)) ∧
    (∀ α : Type,
      issues_page (Except.error OError.transport : Except OError α) =
        .error .transport ∧
      commit_page (Except.error OError.transport : Except OError α) =
        .error .transport ∧
      pull_request_page (Except.error OError.transport : Except OError α) =
        .error .transport) ∧
    (∀ user : User,
      enrich_user (.error .transport) user = .error .transport) := by
  refine ⟨?_, ?_, ?_, ?_, ?_, ?_, ?_, ?_, ?_, ?_⟩
  · intro α failures; simp [issuesItems, issues_page]
  · intro α failures; simp [commitsItems, commit_page]
  · intro α β failures fetchReviews
    simp [reviewsItems, pull_request_page]
  · intro user; simp [enrich_user]
  · intro α url h; simp [issues_page, h]
  · intro α url h; simp [commit_page, h]
  · intro α url h; simp [pull_request_page, h]
  · intro url user h; simp [enrich_user, h]
  · intro α
    exact ⟨rfl, rfl, rfl⟩
  · intro user; rfl

theorem c8_expected_absent_witness :
    issues_page (Except.error (OError.gitHub commitsDocUrl) :
      Except OError (List Nat)) = .error (.gitHub commitsDocUrl) :=
  c8_expected_absent.2.2.2.2.1 (List Nat) commitsDocUrl (by decide)

end GithubContributions
